import Mathlib

/-!
Shallow embedding of the Streamliner highlight-detection core
(`src/streamliner/detector.py`, `src/streamliner/worker.py`,
`src/streamliner/pipeline.py`) and proofs of the specification claims.

Numeric values (Python floats) are modelled as rationals `ℚ`; machine
floating point is not load-bearing for any of the claims checked here,
which are about control flow, counting, clamping and exact algebra.
-/

namespace Streamliner

/-! ## Python string containment and lowercasing

Python `needle in hay` on strings is substring containment (the empty
needle is contained in everything).  `str.lower` on the ASCII texts in
play coincides with `Char.toLower` mapped over the characters. -/

/-- `needle` is a prefix of `hay`, on character lists (Python-style). -/
def isPrefixCh : List Char → List Char → Bool
  | [], _ => true
  | _ :: _, [] => false
  | c :: cs, d :: ds => c == d && isPrefixCh cs ds

/-- Python `needle in hay` for strings: `needle` occurs as a contiguous
substring of `hay`. -/
def containsSub (hay needle : List Char) : Bool :=
  match hay with
  | [] => isPrefixCh needle []
  | _ :: t => isPrefixCh needle hay || containsSub t needle

/-- `str.lower()` composed with membership: the lowered needle occurs in the
lowered haystack, as in `keyword.lower() in text_segment.lower()`
(detector.py line 222). -/
def lowerContains (hay needle : String) : Bool :=
  containsSub (hay.data.map Char.toLower) (needle.data.map Char.toLower)

/-! ## Keyword tables and Python dict semantics

A Python `dict[str, float]` is modelled as an insertion-ordered
association list with pairwise-distinct keys.  `{**a, **b}` is modelled
by inserting the entries of `b` into `a` in order, later keys
overwriting earlier ones in place. -/

/-- A keyword table: insertion-ordered `str → float` mapping. -/
abbrev KwTable := List (String × ℚ)

/-- First-match lookup, as Python `d[k]` / `d.get(k)`. -/
def lookupKw (tbl : KwTable) (k : String) : Option ℚ :=
  (tbl.find? (fun p => p.1 == k)).map (·.2)

/-- Python dict insertion: overwrite the value in place when the key is
present, append otherwise. -/
def dictInsert (tbl : KwTable) (k : String) (v : ℚ) : KwTable :=
  if (tbl.find? (fun p => p.1 == k)).isSome then
    tbl.map (fun p => if p.1 == k then (k, v) else p)
  else
    tbl ++ [(k, v)]

/-- Python `{**a, **b}`: entries of `b` override entries of `a` sharing a
key; every non-colliding key of either table is kept
(detector.py lines 211-214). -/
def dictMerge (a b : KwTable) : KwTable :=
  b.foldl (fun acc p => dictInsert acc p.1 p.2) a

/-- `self.streamer_keywords_map.get(streamer_name, {})`
(detector.py lines 205-207). -/
def streamerKeywordsFor (m : List (String × KwTable)) (name : String) : KwTable :=
  ((m.find? (fun p => p.1 == name)).map (·.2)).getD []

/-- `HighlightDetector._calculate_keyword_score` (detector.py lines 197-227):
merge the general table with the current streamer's table (streamer wins),
then add each merged keyword's weight once when its lowered form occurs in
the lowered transcript text. -/
def calculate_keyword_score (general : KwTable) (streamerMap : List (String × KwTable))
    (streamer_name : String) (text_segment : String) : ℚ :=
  let combined := dictMerge general (streamerKeywordsFor streamerMap streamer_name)
  combined.foldl (fun score p =>
    if lowerContains text_segment p.1 then score + p.2 else score) 0

/-! ## `scipy.signal.find_peaks` as used by the detector

`find_highlights` (detector.py lines 121-125) calls
`find_peaks(normalized_rms, height=rms_peak_threshold,
distance=clip_duration_seconds)`.  The model below follows scipy's
implementation: `_local_maxima_1d` (strictly-greater neighbours; a
plateau's representative is its midpoint, rounded down), then the height
filter (`x[peak] ≥ height`), then `_select_by_peak_distance`, which walks
the peaks in decreasing priority (priority = peak height, stable argsort,
so equal heights are visited later-index first) and discards every other
surviving peak closer than `⌈distance⌉`. -/

/-- One step of scipy's `_local_maxima_1d` scan, position by position:
`prev` is `x[i-1]`; a position opens a local maximum when `x[i-1] < x[i]`
and the first differing sample after the plateau exists and is `< x[i]`;
the recorded index is the plateau midpoint. -/
def lmAux (prev : ℚ) : List ℚ → ℕ → List ℕ
  | [], _ => []
  | c :: rest, i =>
    let tail := lmAux c rest (i + 1)
    if prev < c then
      let m := (rest.takeWhile (fun y => y == c)).length
      match rest.drop m with
      | [] => tail
      | d :: _ => if d < c then (i + m / 2) :: tail else tail
    else tail

/-- scipy `_local_maxima_1d`: indices of interior local maxima, ascending.
The first and last samples are never maxima. -/
def localMaxima : List ℚ → List ℕ
  | [] => []
  | x0 :: rest => lmAux x0 rest 1

/-- Stable insertion of an index into an index list sorted by ascending
priority (ties keep the earlier-inserted element in front). -/
def argsortInsert (priority : List ℚ) (j : ℕ) : List ℕ → List ℕ
  | [] => [j]
  | k :: ks =>
    if priority.getD j 0 ≤ priority.getD k 0 then j :: k :: ks
    else k :: argsortInsert priority j ks

/-- Stable ascending argsort of a priority list (numpy's argsort is stable
on the short arrays at play: its quicksort falls back to insertion sort). -/
def argsortStable (priority : List ℚ) : List ℕ :=
  (List.range priority.length).foldr (argsortInsert priority) []

/-- `np.ceil` on a rational, as an integer: explicit ceiling division
(kept kernel-computable; agrees with `Int.ceil`). -/
def ratCeil (q : ℚ) : ℤ := (q.num + (q.den : ℤ) - 1) / (q.den : ℤ)

/-- Clear the keep flag of every peak other than `j` that lies strictly
closer than `d` to position `pj`: scipy's two one-sided scans
(`peaks[j] - peaks[k] < distance_` on the left, `peaks[k] - peaks[j] <
distance_` on the right); `k` is the index of the first flag. -/
def spdMark (d pj : ℤ) (j : ℕ) : ℕ → List ℕ → List Bool → List Bool
  | _, _, [] => []
  | _, [], bs => bs
  | k, p :: ps, b :: bs =>
    (if (k < j ∧ pj - (p : ℤ) < d) ∨ (j < k ∧ (p : ℤ) - pj < d) then false else b) ::
      spdMark d pj j (k + 1) ps bs

/-- scipy `_select_by_peak_distance`: visit peak positions in decreasing
priority; each still-kept peak clears every other peak strictly closer
than `⌈distance⌉`.  Returns the parallel keep flags. -/
def spdFlags (peaks : List ℕ) (priority : List ℚ) (distance : ℚ) : List Bool :=
  (argsortStable priority).reverse.foldl
    (fun keep j =>
      if keep.getD j false then
        spdMark (ratCeil distance) (peaks.getD j 0 : ℤ) j 0 peaks keep
      else keep)
    (List.replicate peaks.length true)

/-- The surviving peaks, in ascending index order. -/
def selectByPeakDistance (peaks : List ℕ) (priority : List ℚ) (distance : ℚ) : List ℕ :=
  ((peaks.zip (spdFlags peaks priority distance)).filter (fun p => p.2)).map (·.1)

/-- `scipy.signal.find_peaks(x, height, distance)` restricted to the two
keyword arguments the detector passes: local maxima, height filter
(`x[peak] ≥ height`), then the distance filter with the peak heights as
priorities. -/
def find_peaks (x : List ℚ) (height : ℚ) (distance : ℚ) : List ℕ :=
  selectByPeakDistance ((localMaxima x).filter (fun p => height ≤ x.getD p 0))
    (((localMaxima x).filter (fun p => height ≤ x.getD p 0)).map (fun p => x.getD p 0))
    distance

/-! ## `HighlightDetector.find_highlights` (detector.py lines 96-194)

External effects are explicit: per-candidate extraction success and the
transcription outcome come from a `DetectorEnv`; temp-file creation and
removal are recorded as events; a raised Python exception is an
`Except.error`. -/

/-- Relevant fields of `DetectionConfig` (`self.config` in the detector). -/
structure DetectionConfig where
  rms_peak_threshold : ℚ
  clip_duration_seconds : ℚ
  hype_score_threshold : ℚ
  rms_weight : ℚ
  keyword_weight : ℚ
  max_clips_per_vod : ℕ
  keywords : KwTable
  streamer_keywords : List (String × KwTable)

/-- One detected highlight; `stop` models the dict key `"end"`. -/
structure Highlight where
  start : ℚ
  stop : ℚ
  score : ℚ
  text : String
deriving DecidableEq

instance {ε α : Type} [DecidableEq ε] [DecidableEq α] : DecidableEq (Except ε α) := fun a b =>
  match a, b with
  | .error e, .error f =>
    if h : e = f then .isTrue (by rw [h]) else .isFalse (by intro hc; cases hc; exact h rfl)
  | .ok x, .ok y =>
    if h : x = y then .isTrue (by rw [h]) else .isFalse (by intro hc; cases hc; exact h rfl)
  | .error _, .ok _ => .isFalse (by intro hc; cases hc)
  | .ok _, .error _ => .isFalse (by intro hc; cases hc)

/-- Outcomes of the external collaborators, per candidate peak index:
whether `_extract_audio_segment` produces a file (`None` on ffmpeg
failure), and whether `transcriber.transcribe` raises or yields the
segment text (`transcription.get("text", "")`). -/
structure DetectorEnv where
  extractOk : ℕ → Bool
  transcribe : ℕ → Except String String

/-- Temp-file events of one `find_highlights` run. -/
inductive FhEvent
  | tempCreated (idx : ℕ)
  | tempRemoved (idx : ℕ)
deriving DecidableEq

/-- Python built-in `max` on two rationals, as an explicit conditional
(value-equal to `Max.max`; kept kernel-computable). -/
def pyMax (a b : ℚ) : ℚ := if a ≤ b then b else a

/-- Python built-in `min` on two rationals, as an explicit conditional
(value-equal to `Min.min`; kept kernel-computable). -/
def pyMin (a b : ℚ) : ℚ := if a ≤ b then a else b

theorem pyMax_eq_max (a b : ℚ) : pyMax a b = max a b := (max_def a b).symm

theorem pyMin_eq_min (a b : ℚ) : pyMin a b = min a b := (min_def a b).symm

/-- The per-candidate loop of `find_highlights` (detector.py lines
136-187): clamp `[start, end]`, extract (skip the candidate on `None`),
transcribe (the `try` block has no `except`, so a raised transcription
error propagates after the `finally` removed the temp file), score, and
keep the candidate iff the final score reaches the hype threshold. -/
def processCandidates (cfg : DetectionConfig) (env : DetectorEnv) (streamer_name : String)
    (normalized : List ℚ) (video_duration_sec : ℚ) :
    List ℕ → Except String (List Highlight) × List FhEvent
  | [] => (.ok [], [])
  | c :: rest =>
    if env.extractOk c then
      match env.transcribe c with
      | .error e => (.error e, [.tempCreated c, .tempRemoved c])
      | .ok segment_text =>
        let start_time := pyMax 0 ((c : ℚ) - cfg.clip_duration_seconds / 2)
        let end_time := pyMin video_duration_sec ((c : ℚ) + cfg.clip_duration_seconds / 2)
        let keyword_score :=
          calculate_keyword_score cfg.keywords cfg.streamer_keywords streamer_name segment_text
        let final_hype_score :=
          normalized.getD c 0 * cfg.rms_weight + keyword_score * cfg.keyword_weight
        let res := processCandidates cfg env streamer_name normalized video_duration_sec rest
        let evs := FhEvent.tempCreated c :: FhEvent.tempRemoved c :: res.2
        match res.1 with
        | .error e => (.error e, evs)
        | .ok hs =>
          (.ok (if cfg.hype_score_threshold ≤ final_hype_score then
                  ⟨start_time, end_time, final_hype_score, segment_text⟩ :: hs
                else hs), evs)
    else
      processCandidates cfg env streamer_name normalized video_duration_sec rest

/-- Stable descending-by-score insertion, modelling
`sorted(candidate_highlights, key=lambda x: x["score"], reverse=True)`
(equal scores keep the original, ascending-index order). -/
def hlInsert (h : Highlight) : List Highlight → List Highlight
  | [] => [h]
  | b :: bs => if b.score ≤ h.score then h :: b :: bs else b :: hlInsert h bs

/-- Python's stable sort, descending by score. -/
def sortByScoreDesc (l : List Highlight) : List Highlight := l.foldr hlInsert []

/-- `np.min` over a nonempty list. -/
def listMin (l : List ℚ) : ℚ := l.foldl pyMin (l.headD 0)

/-- `np.max` over a nonempty list. -/
def listMax (l : List ℚ) : ℚ := l.foldl pyMax (l.headD 0)

/-- `normalized_rms = (rms_scores - rms_min) / (rms_max - rms_min)`
(detector.py line 118). -/
def normalizedOf (rms : List ℚ) : List ℚ :=
  rms.map (fun v => (v - listMin rms) / (listMax rms - listMin rms))

/-- The candidate peaks of a run (detector.py lines 121-125). -/
def peaksOf (cfg : DetectionConfig) (rms : List ℚ) : List ℕ :=
  find_peaks (normalizedOf rms) cfg.rms_peak_threshold cfg.clip_duration_seconds

/-- `find_highlights` from the RMS curve onwards (detector.py lines
108-194): empty curve → `[]`; flat curve (`max − min < 1e-6`) → `[]`;
otherwise min-max normalize, run `find_peaks`, no peaks → `[]`; else score
candidates sequentially, sort descending by score and truncate to
`max_clips_per_vod`.  (The Python locals `normalized_rms`,
`candidate_peaks` appear here as `normalizedOf` / `peaksOf`.) -/
def find_highlights_core (cfg : DetectionConfig) (env : DetectorEnv) (streamer_name : String)
    (rms_scores : List ℚ) (video_duration_sec : ℚ) :
    Except String (List Highlight) × List FhEvent :=
  if rms_scores.length = 0 then (.ok [], [])
  else if listMax rms_scores - listMin rms_scores < 1 / 1000000 then (.ok [], [])
  else if peaksOf cfg rms_scores = [] then (.ok [], [])
  else
    match (processCandidates cfg env streamer_name (normalizedOf rms_scores)
        video_duration_sec (peaksOf cfg rms_scores)).1 with
    | .error e =>
      (.error e,
       (processCandidates cfg env streamer_name (normalizedOf rms_scores)
          video_duration_sec (peaksOf cfg rms_scores)).2)
    | .ok hs =>
      (.ok ((sortByScoreDesc hs).take cfg.max_clips_per_vod),
       (processCandidates cfg env streamer_name (normalizedOf rms_scores)
          video_duration_sec (peaksOf cfg rms_scores)).2)

/-- `HighlightDetector._calculate_rms` (detector.py lines 73-93), at the
default `window_sec = 1.0` used by every caller, so
`window_size = sample_rate`.  `audio = none` models an unreadable file
(`sf.read` raised); `sqrtMeanSq` stands for the per-window
`np.sqrt(np.mean(w ** 2))`, whose value is irrational in general and
irrelevant to the claims.  Fewer samples than one window yields `[]`. -/
def calculate_rms (sqrtMeanSq : List ℚ → ℚ) (audio : Option (List ℚ)) (sample_rate : ℕ) :
    List ℚ :=
  match audio with
  | none => []
  | some data =>
    if data.length / sample_rate = 0 then []
    else (List.range (data.length / sample_rate)).map
      (fun i => sqrtMeanSq ((data.drop (i * sample_rate)).take sample_rate))

/-- The full `find_highlights`, from the decoded (mono) audio samples. -/
def find_highlights_model (cfg : DetectionConfig) (env : DetectorEnv) (streamer_name : String)
    (sqrtMeanSq : List ℚ → ℚ) (audio : Option (List ℚ)) (sample_rate : ℕ)
    (video_duration_sec : ℚ) : Except String (List Highlight) × List FhEvent :=
  find_highlights_core cfg env streamer_name (calculate_rms sqrtMeanSq audio sample_rate)
    video_duration_sec

/-! ## `ProcessingWorker` (worker.py)

The poll loop's per-chunk work (worker.py lines 50-60): append the new
chunk to `cleanup_buffer` (a `deque(maxlen=5)`, so appending to a full
deque silently drops the oldest entry), spawn the processing task, then
`_cleanup_oldest_chunk`: when the buffer is at `maxlen`, `_safe_delete`
the entry at position 0 — without removing it from the buffer.  Chunks
are identified by naturals; a file exists iff it has not been removed.
Deletions succeed (the "no deletion failures" hypothesis of C1). -/

/-- `deque(maxlen=n).append`: drop the oldest element when full. -/
def dequeAppend (maxlen : ℕ) (buf : List ℕ) (c : ℕ) : List ℕ :=
  if buf.length = maxlen then buf.drop 1 ++ [c] else buf ++ [c]

/-- Observable watcher state: the cleanup buffer (oldest first), the files
removed so far (in removal order), and the number of `_safe_delete`
invocations. -/
structure WatcherState where
  buffer : List ℕ
  removedFiles : List ℕ
  deleteAttempts : ℕ
deriving DecidableEq

def initialWatcherState : WatcherState := ⟨[], [], 0⟩

/-- One new-chunk iteration of the poll loop (worker.py lines 50-60)
followed by `_cleanup_oldest_chunk` (lines 82-86), with every deletion
succeeding: the file at `buffer[0]` is removed if it still exists. -/
def discoverChunk (maxlen : ℕ) (st : WatcherState) (c : ℕ) : WatcherState :=
  let buf := dequeAppend maxlen st.buffer c
  if buf.length = maxlen then
    let target := buf.headD 0
    { buffer := buf
      removedFiles :=
        if target ∈ st.removedFiles then st.removedFiles else st.removedFiles ++ [target]
      deleteAttempts := st.deleteAttempts + 1 }
  else
    { st with buffer := buf }

/-- Sequential chunk discoveries starting from the fresh worker. -/
def runDiscoveries (maxlen : ℕ) (chunks : List ℕ) : WatcherState :=
  chunks.foldl (discoverChunk maxlen) initialWatcherState

/-! ### `ProcessingWorker._safe_delete` (worker.py lines 107-127)

The environment fixes what the filesystem answers at each step: the two
`exists()` checks and whether each `os.remove` raises `OSError`. -/

structure DeleteEnv where
  existsFirst : Bool
  removeFirstOk : Bool
  existsRetry : Bool
  removeRetryOk : Bool

/-- Observable outcome of one `_safe_delete` call. -/
structure DeleteResult where
  removed : Bool
  sleeps : ℕ
  loggedFinalFailure : Bool
  propagated : Option String
deriving DecidableEq

/-- `_safe_delete`: no-op when the file does not exist; an `OSError` on
the first `os.remove` is caught, the worker sleeps 1 s and retries once;
an `OSError` on the retry is caught and logged.  Nothing escapes. -/
def safe_delete (env : DeleteEnv) : DeleteResult :=
  if env.existsFirst then
    if env.removeFirstOk then ⟨true, 0, false, none⟩
    else
      if env.existsRetry then
        if env.removeRetryOk then ⟨true, 1, false, none⟩
        else ⟨false, 1, true, none⟩
      else ⟨false, 1, false, none⟩
  else ⟨false, 0, false, none⟩

/-! ## `ProcessingWorker.process_chunk` (worker.py lines 129-158)

Python raises `TypeError` at call time when a function is invoked with
fewer positional arguments than its signature requires.
`HighlightDetector.find_highlights` (detector.py lines 96-101) requires
three arguments (`audio_path_str`, `video_duration_sec`,
`streamer_name`); the call in `process_chunk` (worker.py lines 138-140)
passes two, as does the call in `process_single_file`
(pipeline.py line 38). -/

/-- Arguments required by `find_highlights`'s signature, `self` excluded. -/
def find_highlights_required_args : ℕ := 3

/-- Arguments passed at worker.py lines 138-140. -/
def worker_call_args : ℕ := 2

/-- Arguments passed at pipeline.py line 38. -/
def pipeline_call_args : ℕ := 2

/-- A Python call: `TypeError` when the arity is wrong, otherwise the
function body's own outcome. -/
def pyCall (required given : ℕ) (body : Except String (List Highlight)) :
    Except String (List Highlight) :=
  if given = required then body else .error "TypeError"

/-- Environment of one `process_chunk` run: whether `_extract_audio`
succeeds (it raises `RuntimeError` on ffmpeg failure), what
`find_highlights` would return if it were called correctly, and whether
`process_and_create_clip` would raise. -/
structure ChunkEnv where
  extractAudioOk : Bool
  detectorBody : Except String (List Highlight)
  pipelineOk : Bool

/-- Observable outcome of one `process_chunk` run. -/
structure ChunkResult where
  pipelineInvocations : ℕ
  caughtError : Option String
  propagated : Option String
  audioRemoved : Bool
deriving DecidableEq

/-- `process_chunk`: extract audio, call `find_highlights` (with
`worker_call_args` arguments), and when highlights come back invoke
`process_and_create_clip` once.  Every exception is caught by the
`except Exception` block; the `finally` removes the extracted audio when
it was created. -/
def process_chunk (env : ChunkEnv) : ChunkResult :=
  if env.extractAudioOk then
    match pyCall find_highlights_required_args worker_call_args env.detectorBody with
    | .error e => ⟨0, some e, none, true⟩
    | .ok highlights =>
      if highlights.isEmpty then ⟨0, none, none, true⟩
      else if env.pipelineOk then ⟨1, none, none, true⟩
      else ⟨1, some "PipelineError", none, true⟩
  else ⟨0, some "RuntimeError", none, false⟩

/-- The detection step of `process_single_file` (pipeline.py line 38):
the same two-argument call, but with no `except` around it, so its
outcome propagates. -/
def process_single_file_detection (body : Except String (List Highlight)) :
    Except String (List Highlight) :=
  pyCall find_highlights_required_args pipeline_call_args body

/-! ## Helper lemmas: dict lookup, merge, fold -/

theorem lookupKw_nil (k : String) : lookupKw [] k = none := rfl

theorem lookupKw_cons (p : String × ℚ) (ps : KwTable) (k : String) :
    lookupKw (p :: ps) k = if p.1 = k then some p.2 else lookupKw ps k := by
  by_cases h : p.1 = k
  · rw [lookupKw, List.find?_cons_of_pos _ (by simpa using h), if_pos h]; rfl
  · rw [lookupKw, List.find?_cons_of_neg _ (by simpa using h), if_neg h]; rfl

theorem none_orElse_eq (f : Unit → Option ℚ) : (Option.none).orElse f = f () := rfl

theorem some_orElse_eq (a : ℚ) (f : Unit → Option ℚ) : (some a).orElse f = some a := rfl

theorem lookupKw_not_mem {t : KwTable} {k : String} (h : k ∉ t.map Prod.fst) :
    lookupKw t k = none := by
  induction t with
  | nil => rfl
  | cons p ps ih =>
    simp only [List.map_cons, List.mem_cons, not_or] at h
    rw [lookupKw_cons, if_neg (fun hc => h.1 hc.symm)]
    exact ih h.2

theorem lookupKw_mapReplace (t : KwTable) (k : String) (v : ℚ) (k' : String) :
    lookupKw (t.map (fun p => if p.1 == k then (k, v) else p)) k' =
      if k' = k then (if (lookupKw t k).isSome then some v else none)
      else lookupKw t k' := by
  induction t with
  | nil => by_cases hk' : k' = k <;> simp [lookupKw_nil, hk']
  | cons p ps ih =>
    by_cases hk : p.1 = k
    · rw [List.map_cons, if_pos (beq_iff_eq.mpr hk), lookupKw_cons]
      by_cases hk' : k' = k
      · rw [if_pos hk'.symm, if_pos hk', lookupKw_cons, if_pos hk]
        simp
      · rw [if_neg (fun hc : k = k' => hk' hc.symm), if_neg hk', ih, if_neg hk',
          lookupKw_cons, if_neg (fun hc : p.1 = k' => hk' (hk ▸ hc).symm)]
    · rw [List.map_cons, if_neg (by simpa using hk), lookupKw_cons]
      by_cases hpk' : p.1 = k'
      · have hk' : ¬ k' = k := fun hc => hk (hpk'.trans hc)
        rw [if_pos hpk', if_neg hk', lookupKw_cons, if_pos hpk']
      · rw [if_neg hpk', ih, lookupKw_cons, if_neg hk, lookupKw_cons, if_neg hpk']

theorem lookupKw_append_single (t : KwTable) (k : String) (v : ℚ) (k' : String)
    (hnone : lookupKw t k = none) :
    lookupKw (t ++ [(k, v)]) k' = if k' = k then some v else lookupKw t k' := by
  induction t with
  | nil =>
    by_cases hk' : k' = k
    · rw [List.nil_append, lookupKw_cons, if_pos hk'.symm, if_pos hk']
    · rw [List.nil_append, lookupKw_cons, if_neg (fun hc : k = k' => hk' hc.symm), if_neg hk']
  | cons p ps ih =>
    rw [lookupKw_cons] at hnone
    by_cases hpk : p.1 = k
    · rw [if_pos hpk] at hnone; cases hnone
    · rw [if_neg hpk] at hnone
      rw [List.cons_append, lookupKw_cons, lookupKw_cons, ih hnone]
      by_cases hpk' : p.1 = k'
      · rw [if_pos hpk', if_neg (fun hc : k' = k => hpk (hpk'.trans hc)), if_pos hpk']
      · rw [if_neg hpk', if_neg hpk']

theorem lookupKw_dictInsert (t : KwTable) (k : String) (v : ℚ) (k' : String) :
    lookupKw (dictInsert t k v) k' = if k' = k then some v else lookupKw t k' := by
  unfold dictInsert
  have hiso : (t.find? (fun p => p.1 == k)).isSome = (lookupKw t k).isSome := by
    simp [lookupKw]
  by_cases hpres : (t.find? (fun p => p.1 == k)).isSome
  · rw [if_pos hpres, lookupKw_mapReplace, hiso] at *
    by_cases hk' : k' = k <;> simp [hk', hpres]
  · rw [if_neg hpres]
    rw [hiso, Option.not_isSome_iff_eq_none] at hpres
    exact lookupKw_append_single t k v k' hpres

theorem lookupKw_dictMerge (g s : KwTable) (k : String) (hs : (s.map Prod.fst).Nodup) :
    lookupKw (dictMerge g s) k = (lookupKw s k).orElse (fun _ => lookupKw g k) := by
  induction s generalizing g with
  | nil => rfl
  | cons p ps ih =>
    simp only [List.map_cons, List.nodup_cons] at hs
    rw [show dictMerge g (p :: ps) = dictMerge (dictInsert g p.1 p.2) ps from rfl,
      ih _ hs.2, lookupKw_cons]
    by_cases hpk : p.1 = k
    · have hnone : lookupKw ps k = none := lookupKw_not_mem (hpk ▸ hs.1)
      rw [hnone, if_pos hpk, none_orElse_eq, some_orElse_eq, lookupKw_dictInsert,
        if_pos hpk.symm]
    · rw [if_neg hpk]
      cases hps : lookupKw ps k with
      | some w => rw [some_orElse_eq, some_orElse_eq]
      | none =>
        rw [none_orElse_eq, none_orElse_eq, lookupKw_dictInsert,
          if_neg (fun hc : k = p.1 => hpk hc.symm)]

theorem foldl_score_eq_sum (m : String × ℚ → Bool) (l : KwTable) (a : ℚ) :
    l.foldl (fun s p => if m p then s + p.2 else s) a
      = a + ((l.filter m).map Prod.snd).sum := by
  induction l generalizing a with
  | nil => simp
  | cons p ps ih =>
    by_cases hm : m p
    · simp [List.foldl, hm, ih, add_assoc]
    · simp [List.foldl, hm, ih]

/-! ## Helper lemmas: sorting and the candidate loop -/

theorem mem_hlInsert (a h : Highlight) (l : List Highlight) :
    a ∈ hlInsert h l ↔ a = h ∨ a ∈ l := by
  induction l with
  | nil => simp [hlInsert]
  | cons b bs ih =>
    by_cases hle : b.score ≤ h.score
    · simp [hlInsert, hle]
    · simp only [hlInsert, if_neg hle, List.mem_cons, ih]
      tauto

theorem mem_sortByScoreDesc (a : Highlight) (l : List Highlight) :
    a ∈ sortByScoreDesc l ↔ a ∈ l := by
  induction l with
  | nil => simp [sortByScoreDesc]
  | cons b bs ih =>
    simp only [sortByScoreDesc, List.foldr] at *
    rw [mem_hlInsert, ih, List.mem_cons]


/-- The final score of candidate `c` with transcript `text`
(detector.py lines 166-170). -/
def finalScore (cfg : DetectionConfig) (name : String) (norm : List ℚ) (c : ℕ)
    (text : String) : ℚ :=
  norm.getD c 0 * cfg.rms_weight +
    calculate_keyword_score cfg.keywords cfg.streamer_keywords name text * cfg.keyword_weight

/-- The highlight record built for candidate `c` (detector.py lines 173-180). -/
def mkHighlight (cfg : DetectionConfig) (name : String) (norm : List ℚ) (dur : ℚ) (c : ℕ)
    (text : String) : Highlight :=
  ⟨pyMax 0 ((c : ℚ) - cfg.clip_duration_seconds / 2),
   pyMin dur ((c : ℚ) + cfg.clip_duration_seconds / 2),
   finalScore cfg name norm c text, text⟩

theorem pc_cons_extractFail {cfg : DetectionConfig} {env : DetectorEnv} {name : String}
    {norm : List ℚ} {dur : ℚ} {c : ℕ} {rest : List ℕ} (hex : env.extractOk c = false) :
    processCandidates cfg env name norm dur (c :: rest) =
      processCandidates cfg env name norm dur rest := by
  rw [processCandidates, if_neg (by simp [hex])]

theorem pc_cons_transcribeError {cfg : DetectionConfig} {env : DetectorEnv} {name : String}
    {norm : List ℚ} {dur : ℚ} {c : ℕ} {rest : List ℕ} {e : String}
    (hex : env.extractOk c = true) (htr : env.transcribe c = .error e) :
    processCandidates cfg env name norm dur (c :: rest) =
      (.error e, [.tempCreated c, .tempRemoved c]) := by
  rw [processCandidates, if_pos hex, htr]

theorem pc_cons_resErr {cfg : DetectionConfig} {env : DetectorEnv} {name : String}
    {norm : List ℚ} {dur : ℚ} {c : ℕ} {rest : List ℕ} {text e : String}
    (hex : env.extractOk c = true) (htr : env.transcribe c = .ok text)
    (hrec : (processCandidates cfg env name norm dur rest).1 = .error e) :
    processCandidates cfg env name norm dur (c :: rest) =
      (.error e,
       FhEvent.tempCreated c :: FhEvent.tempRemoved c ::
         (processCandidates cfg env name norm dur rest).2) := by
  rw [processCandidates, if_pos hex, htr]
  simp only [hrec]

theorem pc_cons_resOk {cfg : DetectionConfig} {env : DetectorEnv} {name : String}
    {norm : List ℚ} {dur : ℚ} {c : ℕ} {rest : List ℕ} {text : String}
    {hs : List Highlight}
    (hex : env.extractOk c = true) (htr : env.transcribe c = .ok text)
    (hrec : (processCandidates cfg env name norm dur rest).1 = .ok hs) :
    processCandidates cfg env name norm dur (c :: rest) =
      (.ok (if cfg.hype_score_threshold ≤ finalScore cfg name norm c text then
              mkHighlight cfg name norm dur c text :: hs
            else hs),
       FhEvent.tempCreated c :: FhEvent.tempRemoved c ::
         (processCandidates cfg env name norm dur rest).2) := by
  rw [processCandidates, if_pos hex, htr]
  simp only [hrec]
  rfl

/-- Every accepted highlight of the candidate loop comes from some listed
candidate `c` through the clamping formulas of detector.py lines 139-145. -/
theorem processCandidates_mem (cfg : DetectionConfig) (env : DetectorEnv) (name : String)
    (norm : List ℚ) (dur : ℚ) :
    ∀ (cands : List ℕ) (hs : List Highlight),
      (processCandidates cfg env name norm dur cands).1 = .ok hs →
      ∀ h ∈ hs, ∃ c ∈ cands,
        h.start = max 0 ((c : ℚ) - cfg.clip_duration_seconds / 2) ∧
        h.stop = min dur ((c : ℚ) + cfg.clip_duration_seconds / 2) := by
  intro cands
  induction cands with
  | nil =>
    intro hs hres h hh
    cases hres
    cases hh
  | cons c rest ih =>
    intro hs hres h hh
    by_cases hex : env.extractOk c
    · cases htr : env.transcribe c with
      | error e =>
        rw [pc_cons_transcribeError hex htr] at hres
        cases hres
      | ok text =>
        cases hrec : (processCandidates cfg env name norm dur rest).1 with
        | error e =>
          rw [pc_cons_resErr hex htr hrec] at hres
          cases hres
        | ok hs' =>
          rw [pc_cons_resOk hex htr hrec] at hres
          simp only [Except.ok.injEq] at hres
          subst hres
          by_cases hth : cfg.hype_score_threshold ≤ finalScore cfg name norm c text
          · rw [if_pos hth] at hh
            rcases List.mem_cons.mp hh with hh | hh
            · subst hh
              exact ⟨c, List.mem_cons_self c rest, rfl, rfl⟩
            · obtain ⟨c', hc', hst, hsp⟩ := ih hs' hrec h hh
              exact ⟨c', List.mem_cons_of_mem c hc', hst, hsp⟩
          · rw [if_neg hth] at hh
            obtain ⟨c', hc', hst, hsp⟩ := ih hs' hrec h hh
            exact ⟨c', List.mem_cons_of_mem c hc', hst, hsp⟩
    · rw [pc_cons_extractFail (Bool.not_eq_true _ ▸ hex)] at hres
      obtain ⟨c', hc', hst, hsp⟩ := ih hs hres h hh
      exact ⟨c', List.mem_cons_of_mem c hc', hst, hsp⟩

/-- In the candidate loop, every created temp segment file is also removed. -/
theorem processCandidates_temp_removed (cfg : DetectionConfig) (env : DetectorEnv)
    (name : String) (norm : List ℚ) (dur : ℚ) :
    ∀ (cands : List ℕ) (i : ℕ),
      FhEvent.tempCreated i ∈ (processCandidates cfg env name norm dur cands).2 →
      FhEvent.tempRemoved i ∈ (processCandidates cfg env name norm dur cands).2 := by
  intro cands
  induction cands with
  | nil => intro i hi; cases hi
  | cons c rest ih =>
    intro i hi
    by_cases hex : env.extractOk c
    · cases htr : env.transcribe c with
      | error e =>
        rw [pc_cons_transcribeError hex htr] at hi ⊢
        simp only [List.mem_cons] at hi ⊢
        rcases hi with hi | hi
        · injection hi with h
          subst h
          exact Or.inr (Or.inl rfl)
        · exact absurd hi (by simp)
      | ok text =>
        cases hrec : (processCandidates cfg env name norm dur rest).1 with
        | error e =>
          rw [pc_cons_resErr hex htr hrec] at hi ⊢
          simp only [List.mem_cons] at hi ⊢
          rcases hi with hi | hi | hi
          · injection hi with h
            subst h
            exact Or.inr (Or.inl rfl)
          · exact absurd hi (by simp)
          · exact Or.inr (Or.inr (ih i hi))
        | ok hs' =>
          rw [pc_cons_resOk hex htr hrec] at hi ⊢
          simp only [List.mem_cons] at hi ⊢
          rcases hi with hi | hi | hi
          · injection hi with h
            subst h
            exact Or.inr (Or.inl rfl)
          · exact absurd hi (by simp)
          · exact Or.inr (Or.inr (ih i hi))
    · rw [pc_cons_extractFail (Bool.not_eq_true _ ▸ hex)] at hi ⊢
      exact ih i hi

/-! ## Concrete runs shared by counterexamples and witnesses -/

/-- Config with clip duration 2 s (so the peaks at indices 1 and 3 both
survive the distance filter). -/
def cfgA : DetectionConfig := ⟨1 / 2, 2, 1 / 2, 3 / 5, 2 / 5, 5, [], []⟩

/-- Environment whose transcription raises for the candidate at index 1. -/
def envBoom : DetectorEnv :=
  ⟨fun _ => true, fun i => if i = 1 then .error "boom" else .ok ""⟩

/-- Config with clip duration 10 s. -/
def cfgB : DetectionConfig := ⟨1 / 2, 10, 1 / 2, 3 / 5, 2 / 5, 5, [], []⟩

/-- Environment where extraction and transcription always succeed with an
empty transcript. -/
def envOk : DetectorEnv := ⟨fun _ => true, fun _ => .ok ""⟩

theorem normalizedOf_twoPeaks : normalizedOf [0, 1, 0, 1, 0] = [0, 1, 0, 1, 0] := by
  norm_num [normalizedOf, listMax, listMin, pyMax, pyMin]

theorem localMaxima_twoPeaks : localMaxima [0, 1, 0, 1, 0] = [1, 3] := by
  norm_num [localMaxima, lmAux, List.takeWhile_cons, beq_iff_eq]

theorem spd_twoPeaks_kept : selectByPeakDistance [1, 3] [1, 1] 2 = [1, 3] := by
  norm_num [selectByPeakDistance, spdFlags, spdMark, argsortStable, argsortInsert, ratCeil,
    List.range_succ, List.getD_cons_zero, List.getD_cons_succ, List.replicate,
    List.filter, List.zip, List.zipWith, List.foldl_cons, List.foldl_nil,
    List.foldr_cons, List.foldr_nil]

theorem peaksOf_A : peaksOf cfgA [0, 1, 0, 1, 0] = [1, 3] := by
  rw [peaksOf, normalizedOf_twoPeaks]
  show find_peaks [0, 1, 0, 1, 0] (1 / 2) 2 = [1, 3]
  rw [find_peaks, localMaxima_twoPeaks]
  have hfil : ([1, 3] : List ℕ).filter
      (fun p => 1 / 2 ≤ ([0, 1, 0, 1, 0] : List ℚ).getD p 0) = [1, 3] := by
    norm_num [List.filter]
  rw [hfil]
  have hmap : ([1, 3] : List ℕ).map (fun p => ([0, 1, 0, 1, 0] : List ℚ).getD p 0) =
      [1, 1] := rfl
  rw [hmap, spd_twoPeaks_kept]

/-- The full aborting run: transcription of the first candidate raises, the
temp file is removed, the error propagates, the second candidate is never
reached. -/
theorem fhc_boom :
    find_highlights_core cfgA envBoom "s" [0, 1, 0, 1, 0] 5 =
      (.error "boom", [.tempCreated 1, .tempRemoved 1]) := by
  have hproc : (processCandidates cfgA envBoom "s" (normalizedOf [0, 1, 0, 1, 0]) 5
      ([1, 3] : List ℕ)) = (.error "boom", [.tempCreated 1, .tempRemoved 1]) :=
    pc_cons_transcribeError rfl rfl
  rw [find_highlights_core, if_neg (by decide),
    if_neg (by norm_num [listMax, listMin, pyMax, pyMin]),
    if_neg (by rw [peaksOf_A]; simp), peaksOf_A, hproc]

theorem normalizedOf_single : normalizedOf [0, 1, 0] = [0, 1, 0] := by
  norm_num [normalizedOf, listMax, listMin, pyMax, pyMin]

theorem localMaxima_single : localMaxima [0, 1, 0] = [1] := by
  norm_num [localMaxima, lmAux, List.takeWhile_cons, beq_iff_eq]

theorem spd_single : selectByPeakDistance [1] [1] 10 = [1] := by
  norm_num [selectByPeakDistance, spdFlags, spdMark, argsortStable, argsortInsert, ratCeil,
    List.range_succ, List.getD_cons_zero, List.getD_cons_succ, List.replicate,
    List.filter, List.zip, List.zipWith, List.foldl_cons, List.foldl_nil,
    List.foldr_cons, List.foldr_nil]

theorem peaksOf_B : peaksOf cfgB [0, 1, 0] = [1] := by
  rw [peaksOf, normalizedOf_single]
  show find_peaks [0, 1, 0] (1 / 2) 10 = [1]
  rw [find_peaks, localMaxima_single]
  have hfil : ([1] : List ℕ).filter
      (fun p => 1 / 2 ≤ ([0, 1, 0] : List ℚ).getD p 0) = [1] := by
    norm_num [List.filter]
  rw [hfil]
  have hmap : ([1] : List ℕ).map (fun p => ([0, 1, 0] : List ℚ).getD p 0) = [1] := rfl
  rw [hmap, spd_single]

theorem finalScore_B : finalScore cfgB "s" [0, 1, 0] 1 "" = 3 / 5 := by
  have hg : ([0, 1, 0] : List ℚ).getD 1 0 = 1 := rfl
  have hkw : calculate_keyword_score cfgB.keywords cfgB.streamer_keywords "s" "" = 0 := rfl
  rw [finalScore, hg, hkw]
  norm_num [cfgB]

/-- The full accepting run: one candidate at index 1, accepted with final
score `3/5`, clamped to `[0, 3]`. -/
theorem fhc_okB :
    find_highlights_core cfgB envOk "s" [0, 1, 0] 3 =
      (.ok [⟨0, 3, 3 / 5, ""⟩], [.tempCreated 1, .tempRemoved 1]) := by
  have hrec : (processCandidates cfgB envOk "s" [0, 1, 0] 3 ([] : List ℕ)).1 = .ok [] := rfl
  have hproc := pc_cons_resOk (rfl : envOk.extractOk 1 = true)
    (rfl : envOk.transcribe 1 = .ok "") hrec
  have hcond : cfgB.hype_score_threshold ≤ finalScore cfgB "s" [0, 1, 0] 1 "" := by
    rw [finalScore_B]
    norm_num [cfgB]
  have hmk : mkHighlight cfgB "s" [0, 1, 0] 3 1 "" = ⟨0, 3, 3 / 5, ""⟩ := by
    rw [mkHighlight, finalScore_B]
    norm_num [pyMax, pyMin, cfgB]
  rw [find_highlights_core, if_neg (by decide),
    if_neg (by norm_num [listMax, listMin, pyMax, pyMin]),
    if_neg (by rw [peaksOf_B]; simp), peaksOf_B, normalizedOf_single]
  rw [if_pos hcond, hmk] at hproc
  rw [hproc]
  rfl

theorem filter_twoPeaks : ([1, 3] : List ℕ).filter
    (fun p => 1 / 2 ≤ ([0, 1, 0, 1, 0] : List ℚ).getD p 0) = [1, 3] := by
  norm_num [List.filter]

theorem map_twoPeaks : ([1, 3] : List ℕ).map
    (fun p => ([0, 1, 0, 1, 0] : List ℚ).getD p 0) = [1, 1] := rfl

theorem spd_twoPeaks_tie : selectByPeakDistance [1, 3] [1, 1] 10 = [3] := by
  norm_num [selectByPeakDistance, spdFlags, spdMark, argsortStable, argsortInsert, ratCeil,
    List.range_succ, List.getD_cons_zero, List.getD_cons_succ, List.replicate,
    List.filter, List.zip, List.zipWith, List.foldl_cons, List.foldl_nil,
    List.foldr_cons, List.foldr_nil]

/-- The explicit ceiling division `ratCeil` agrees with `Int.ceil`. -/
theorem ratCeil_eq (q : ℚ) : ratCeil q = ⌈q⌉ := by
  have hden : (0 : ℤ) < (q.den : ℤ) := by exact_mod_cast q.pos
  have hdm := Int.ediv_add_emod (q.num + (q.den : ℤ) - 1) (q.den : ℤ)
  have hr0 : 0 ≤ (q.num + (q.den : ℤ) - 1) % (q.den : ℤ) :=
    Int.emod_nonneg _ (ne_of_gt hden)
  have hr1 : (q.num + (q.den : ℤ) - 1) % (q.den : ℤ) < (q.den : ℤ) :=
    Int.emod_lt_of_pos _ hden
  have hdq : (0 : ℚ) < (q.den : ℚ) := by exact_mod_cast hden
  set n := ratCeil q with hn
  symm
  rw [Int.ceil_eq_iff]
  constructor
  · rw [← Rat.num_div_den q, lt_div_iff₀ hdq]
    have hz : (n - 1) * (q.den : ℤ) < q.num := by
      rw [hn, ratCeil]
      nlinarith [hdm, hr0, hr1]
    exact_mod_cast hz
  · rw [← Rat.num_div_den q, div_le_iff₀ hdq]
    have hz : q.num ≤ n * (q.den : ℤ) := by
      rw [hn, ratCeil]
      nlinarith [hdm, hr0, hr1]
    exact_mod_cast hz

theorem lt_ratCeil {z : ℤ} {q : ℚ} : z < ratCeil q ↔ (z : ℚ) < q := by
  rw [ratCeil_eq]
  exact Int.lt_ceil

/-! ## Claims -/

/-- C1, counterexample: with capacity 5 and no deletion failures, six
sequential discoveries produce two `_safe_delete` attempts and two file
removals, not one of each — the first attempt already happens at the 5th
discovery, when the buffer first reaches capacity. -/
theorem C1_counterexample :
    ¬ ((runDiscoveries 5 [1, 2, 3, 4, 5, 6]).deleteAttempts = 1 ∧
       (runDiscoveries 5 [1, 2, 3, 4, 5, 6]).removedFiles.length = 1) := by
  decide

/-- C1 (amended): with a trailing buffer of capacity 5 and no deletion
failures, 6 sequential discoveries of distinct chunks yield exactly two
deletion attempts, removing the two oldest chunks; the first removal
already happens at the 5th discovery, when the buffer reaches capacity,
while the removed record is still a member of the buffer — eligibility
for deletion does not wait for overflow. -/
theorem C1_buffer_deletions (c1 c2 c3 c4 c5 c6 : ℕ)
    (hnd : ([c1, c2, c3, c4, c5, c6] : List ℕ).Nodup) :
    (runDiscoveries 5 [c1, c2, c3, c4, c5, c6]).deleteAttempts = 2 ∧
    (runDiscoveries 5 [c1, c2, c3, c4, c5, c6]).removedFiles = [c1, c2] ∧
    (runDiscoveries 5 [c1, c2, c3, c4, c5]).removedFiles = [c1] ∧
    c1 ∈ (runDiscoveries 5 [c1, c2, c3, c4, c5]).buffer := by
  have h21 : ¬ c2 = c1 := by
    intro hc
    subst hc
    simp [List.nodup_cons] at hnd
  simp [runDiscoveries, List.foldl, discoverChunk, dequeAppend, initialWatcherState, h21]

theorem C1_witness :
    (runDiscoveries 5 [1, 2, 3, 4, 5, 6]).deleteAttempts = 2 ∧
    (runDiscoveries 5 [1, 2, 3, 4, 5, 6]).removedFiles = [1, 2] ∧
    (runDiscoveries 5 [1, 2, 3, 4, 5]).removedFiles = [1] ∧
    1 ∈ (runDiscoveries 5 [1, 2, 3, 4, 5]).buffer :=
  C1_buffer_deletions 1 2 3 4 5 6 (by decide)

/-- C2: at a chunk whose detector run would find a highlight, the clip
pipeline is still never invoked — the two-argument `find_highlights` call
raises `TypeError`, which `process_chunk` catches, so the claimed
"invoked exactly once per chunk with the best highlight" never happens. -/
theorem C2_pipeline_never_invoked :
    (process_chunk ⟨true, .ok [⟨25, 35, 9 / 5, "clutch"⟩], true⟩).pipelineInvocations = 0 ∧
    (process_chunk ⟨true, .ok [⟨25, 35, 9 / 5, "clutch"⟩], true⟩).caughtError =
      some "TypeError" := by
  exact ⟨rfl, rfl⟩

/-- C3: `process_chunk` never propagates and never invokes the clip
pipeline; when audio extraction succeeds the caught error is exactly the
`TypeError` of the two-argument `find_highlights` call (the signature
requires three arguments), and `process_single_file` makes the same
two-argument call, which yields the same `TypeError`. -/
theorem C3_typeerror_caught (env : ChunkEnv) :
    (process_chunk env).propagated = none ∧
    (process_chunk env).pipelineInvocations = 0 ∧
    (env.extractAudioOk = true → (process_chunk env).caughtError = some "TypeError") ∧
    worker_call_args = 2 ∧ pipeline_call_args = 2 ∧ find_highlights_required_args = 3 ∧
    (∀ body, process_single_file_detection body = .error "TypeError") := by
  obtain ⟨hex, body, hpipe⟩ := env
  cases hex
  · refine ⟨rfl, rfl, fun h => ?_, rfl, rfl, rfl, fun b => rfl⟩
    cases h
  · exact ⟨rfl, rfl, fun h => rfl, rfl, rfl, rfl, fun b => rfl⟩

theorem C3_witness :
    (process_chunk ⟨true, .ok [], true⟩).caughtError = some "TypeError" :=
  (C3_typeerror_caught ⟨true, .ok [], true⟩).2.2.1 rfl

/-- C10: `_safe_delete` never propagates an exception: a missing file is a
no-op, a first-attempt `OSError` leads to a 1-second backoff and one
retry, and a retry `OSError` is caught and logged. -/
theorem C10_safe_delete_total (env : DeleteEnv) :
    (safe_delete env).propagated = none ∧
    (env.existsFirst = false → safe_delete env = ⟨false, 0, false, none⟩) ∧
    (env.existsFirst = true → env.removeFirstOk = false → (safe_delete env).sleeps = 1) ∧
    (env.existsFirst = true → env.removeFirstOk = false → env.existsRetry = true →
      env.removeRetryOk = false → (safe_delete env).loggedFinalFailure = true) := by
  obtain ⟨e1, r1, e2, r2⟩ := env
  cases e1 <;> cases r1 <;> cases e2 <;> cases r2 <;> simp [safe_delete]

/-- C4, counterexample: with candidates at indices 1 and 3, a raising
transcription of the first candidate makes `find_highlights` propagate
the exception — the second candidate is never processed, so a
per-candidate transcription failure does abort the remaining batch. -/
theorem C4_counterexample :
    (find_highlights_core cfgA envBoom "s" [0, 1, 0, 1, 0] 5).1 = .error "boom" ∧
    FhEvent.tempCreated 3 ∉
      (find_highlights_core cfgA envBoom "s" [0, 1, 0, 1, 0] 5).2 := by
  rw [fhc_boom]
  exact ⟨rfl, by decide⟩

/-- C4 (amended): a failed extraction skips the candidate and scoring
continues with the next one; a raising transcription instead propagates
out of the candidate loop (its temp file still removed), aborting the
remaining batch. -/
theorem C4_candidate_failures (cfg : DetectionConfig) (env : DetectorEnv) (name : String)
    (norm : List ℚ) (dur : ℚ) :
    (∀ (c : ℕ) (rest : List ℕ) (e : String),
        env.extractOk c = true → env.transcribe c = .error e →
        processCandidates cfg env name norm dur (c :: rest) =
          (.error e, [.tempCreated c, .tempRemoved c])) ∧
    (∀ (c : ℕ) (rest : List ℕ),
        env.extractOk c = false →
        processCandidates cfg env name norm dur (c :: rest) =
          processCandidates cfg env name norm dur rest) :=
  ⟨fun _ _ _ hex htr => pc_cons_transcribeError hex htr,
   fun _ _ hex => pc_cons_extractFail hex⟩

theorem C4_witness :
    processCandidates cfgA envBoom "s" [0, 1, 0, 1, 0] 5 [1, 3] =
      (.error "boom", [.tempCreated 1, .tempRemoved 1]) ∧
    processCandidates cfgA ⟨fun _ => false, fun _ => .ok ""⟩ "s" [0, 1, 0, 1, 0] 5 [1] =
      processCandidates cfgA ⟨fun _ => false, fun _ => .ok ""⟩ "s" [0, 1, 0, 1, 0] 5 [] :=
  ⟨(C4_candidate_failures cfgA envBoom "s" [0, 1, 0, 1, 0] 5).1 1 [3] "boom" rfl rfl,
   (C4_candidate_failures cfgA ⟨fun _ => false, fun _ => .ok ""⟩ "s"
      [0, 1, 0, 1, 0] 5).2 1 [] rfl⟩

/-- C5: the keyword score merges the general and per-streamer tables with
per-streamer entries overriding general ones (all non-colliding keys
kept), and adds each merged keyword's weight exactly once — iff its
lowered form occurs in the lowered transcript, independently of the
number of occurrences; `"an amazing clutch clutch play"` against
`{"clutch": 3.0}` scores exactly 3. -/
theorem C5_keyword_score :
    (∀ (g s : KwTable) (k : String), (s.map Prod.fst).Nodup →
      lookupKw (dictMerge g s) k = (lookupKw s k).orElse (fun _ => lookupKw g k)) ∧
    (∀ (g : KwTable) (m : List (String × KwTable)) (name text : String),
      calculate_keyword_score g m name text =
        (((dictMerge g (streamerKeywordsFor m name)).filter
            (fun p => lowerContains text p.1)).map Prod.snd).sum) ∧
    calculate_keyword_score [("clutch", 3)] [] "anyone" "an amazing clutch clutch play" =
      3 := by
  refine ⟨fun g s k hs => lookupKw_dictMerge g s k hs, fun g m name text => ?_, ?_⟩
  · simp only [calculate_keyword_score]
    rw [foldl_score_eq_sum (fun p => lowerContains text p.1)
      (dictMerge g (streamerKeywordsFor m name)) 0, zero_add]
  · have hlc : lowerContains "an amazing clutch clutch play" "clutch" = true := rfl
    have hmg : dictMerge [("clutch", (3 : ℚ))] (streamerKeywordsFor [] "anyone") =
        [("clutch", 3)] := rfl
    simp only [calculate_keyword_score, hmg, List.foldl_cons, List.foldl_nil, hlc,
      if_true]
    norm_num

theorem C5_witness :
    lookupKw (dictMerge [("a", 1)] [("a", 2)]) "a" =
      (lookupKw [("a", 2)] "a").orElse (fun _ => lookupKw [("a", 1)] "a") :=
  C5_keyword_score.1 [("a", 1)] [("a", 2)] "a" (by simp)

/-- C6, counterexample: the normalized curve `[0,1,0,1,0]` has two
height-1 peaks (indices 1 and 3) closer than the distance 10; scipy's
selection keeps index 3 — on an exact height tie the LATER index
survives, not the earlier one the claim states. -/
theorem C6_counterexample :
    find_peaks [0, 1, 0, 1, 0] (1 / 2) 10 = [3] ∧ ([3] : List ℕ) ≠ [1] := by
  constructor
  · rw [find_peaks, localMaxima_twoPeaks, filter_twoPeaks, map_twoPeaks, spd_twoPeaks_tie]
  · decide

/-- C6 (amended): when two peaks passing the height threshold lie closer
together than the enforced minimum distance, the one with the higher
value survives; on an exact height tie, the peak with the LATER index
survives (scipy visits equal-priority peaks in reverse stable-argsort
order). -/
theorem C6_tie_break (p1 p2 : ℕ) (h1 h2 d : ℚ) (hlt : p1 < p2)
    (hclose : (p2 : ℚ) - (p1 : ℚ) < d) :
    selectByPeakDistance [p1, p2] [h1, h2] d = if h1 ≤ h2 then [p2] else [p1] := by
  have hcI : ((p2 : ℤ) - (p1 : ℤ)) < ratCeil d := lt_ratCeil.mpr (by push_cast; linarith)
  have g0 : ([h1, h2] : List ℚ).getD 0 0 = h1 := rfl
  have g1 : ([h1, h2] : List ℚ).getD 1 0 = h2 := rfl
  by_cases hcmp : h1 ≤ h2
  · have hsort : argsortStable [h1, h2] = [0, 1] := by
      simp [argsortStable, argsortInsert, List.range_succ, g0, g1, hcmp]
    rw [if_pos hcmp, selectByPeakDistance, spdFlags, hsort]
    norm_num [spdMark, List.replicate, hcI, List.filter]
  · have hsort : argsortStable [h1, h2] = [1, 0] := by
      simp [argsortStable, argsortInsert, List.range_succ, g0, g1, hcmp]
    rw [if_neg hcmp, selectByPeakDistance, spdFlags, hsort]
    norm_num [spdMark, List.replicate, hcI, List.filter]

theorem C6_witness :
    selectByPeakDistance [1, 3] [1, 1] 10 = if (1 : ℚ) ≤ 1 then [3] else [1] :=
  C6_tie_break 1 3 1 1 10 (by norm_num) (by norm_num)

/-- C7: `find_highlights` yields `ok []` — never an error — when the audio
is unreadable, when it is shorter than one window, and when the RMS curve
is flat (`max − min < 1e-6`). -/
theorem C7_empty_not_error (cfg : DetectionConfig) (env : DetectorEnv) (name : String)
    (sqrtMeanSq : List ℚ → ℚ) (sample_rate : ℕ) (dur : ℚ) :
    (find_highlights_model cfg env name sqrtMeanSq none sample_rate dur).1 = .ok [] ∧
    (∀ data : List ℚ, data.length < sample_rate →
      (find_highlights_model cfg env name sqrtMeanSq (some data) sample_rate dur).1 =
        .ok []) ∧
    (∀ rms : List ℚ, rms ≠ [] → listMax rms - listMin rms < 1 / 1000000 →
      (find_highlights_core cfg env name rms dur).1 = .ok []) := by
  refine ⟨rfl, fun data hlen => ?_, fun rms hne hflat => ?_⟩
  · have hrms : calculate_rms sqrtMeanSq (some data) sample_rate = [] := by
      simp only [calculate_rms, Nat.div_eq_of_lt hlen, if_pos]
    rw [find_highlights_model, hrms]
    rfl
  · rw [find_highlights_core, if_neg (fun h => hne (List.length_eq_zero.mp h)),
      if_pos hflat]

theorem C7_witness :
    (find_highlights_model cfgB envOk "s" (fun _ => 0) (some []) 1 0).1 = .ok [] ∧
    (find_highlights_core cfgB envOk "s" [1] 0).1 = .ok [] :=
  ⟨(C7_empty_not_error cfgB envOk "s" (fun _ => 0) 1 0).2.1 [] (by decide),
   (C7_empty_not_error cfgB envOk "s" (fun _ => 0) 1 0).2.2 [1] (by simp)
     (by norm_num [listMax, listMin, pyMax, pyMin])⟩

/-- C8: every returned highlight comes from a candidate `c` with
`start = max(0, c − clipDuration/2)` and
`end = min(sourceDuration, c + clipDuration/2)`; hence `start ≥ 0`,
`end ≤ sourceDuration`, `end − start ≤ clipDuration`, and a candidate at
index 0 yields `start = 0` exactly. -/
theorem C8_clamping (cfg : DetectionConfig) (env : DetectorEnv) (name : String)
    (rms : List ℚ) (dur : ℚ) (hs : List Highlight)
    (hd : 0 ≤ cfg.clip_duration_seconds)
    (hres : (find_highlights_core cfg env name rms dur).1 = .ok hs) :
    ∀ h ∈ hs, ∃ c : ℕ, c ∈ peaksOf cfg rms ∧
      h.start = max 0 ((c : ℚ) - cfg.clip_duration_seconds / 2) ∧
      h.stop = min dur ((c : ℚ) + cfg.clip_duration_seconds / 2) ∧
      0 ≤ h.start ∧ h.stop ≤ dur ∧
      h.stop - h.start ≤ cfg.clip_duration_seconds ∧
      (c = 0 → h.start = 0) := by
  intro h hh
  by_cases h0 : rms.length = 0
  · rw [find_highlights_core, if_pos h0] at hres
    injection hres with hres
    subst hres
    cases hh
  · by_cases h1 : listMax rms - listMin rms < 1 / 1000000
    · rw [find_highlights_core, if_neg h0, if_pos h1] at hres
      injection hres with hres
      subst hres
      cases hh
    · by_cases h2 : peaksOf cfg rms = []
      · rw [find_highlights_core, if_neg h0, if_neg h1, if_pos h2] at hres
        injection hres with hres
        subst hres
        cases hh
      · rw [find_highlights_core, if_neg h0, if_neg h1, if_neg h2] at hres
        cases hrec : (processCandidates cfg env name (normalizedOf rms) dur
            (peaksOf cfg rms)).1 with
        | error e =>
          rw [hrec] at hres
          cases hres
        | ok hs' =>
          rw [hrec] at hres
          injection hres with hres
          subst hres
          have hmem : h ∈ hs' :=
            (mem_sortByScoreDesc h hs').mp (List.mem_of_mem_take hh)
          obtain ⟨c, hc, hst, hsp⟩ :=
            processCandidates_mem cfg env name (normalizedOf rms) dur
              (peaksOf cfg rms) hs' hrec h hmem
          refine ⟨c, hc, hst, hsp, ?_, ?_, ?_, ?_⟩
          · rw [hst]; exact le_max_left _ _
          · rw [hsp]; exact min_le_left _ _
          · have hup : h.stop ≤ (c : ℚ) + cfg.clip_duration_seconds / 2 := by
              rw [hsp]; exact min_le_right _ _
            have hlo : (c : ℚ) - cfg.clip_duration_seconds / 2 ≤ h.start := by
              rw [hst]; exact le_max_right _ _
            linarith
          · intro hc0
            subst hc0
            rw [hst]
            simp only [Nat.cast_zero, zero_sub]
            exact max_eq_left (by linarith [div_nonneg hd (by norm_num : (0 : ℚ) ≤ 2)])

theorem C8_witness :
    ∃ c : ℕ, c ∈ peaksOf cfgB [0, 1, 0] ∧
      (⟨0, 3, 3 / 5, ""⟩ : Highlight).start =
        max 0 ((c : ℚ) - cfgB.clip_duration_seconds / 2) ∧
      (⟨0, 3, 3 / 5, ""⟩ : Highlight).stop =
        min 3 ((c : ℚ) + cfgB.clip_duration_seconds / 2) ∧
      0 ≤ (⟨0, 3, 3 / 5, ""⟩ : Highlight).start ∧
      (⟨0, 3, 3 / 5, ""⟩ : Highlight).stop ≤ 3 ∧
      (⟨0, 3, 3 / 5, ""⟩ : Highlight).stop - (⟨0, 3, 3 / 5, ""⟩ : Highlight).start ≤
        cfgB.clip_duration_seconds ∧
      (c = 0 → (⟨0, 3, 3 / 5, ""⟩ : Highlight).start = 0) :=
  C8_clamping cfgB envOk "s" [0, 1, 0] 3 [⟨0, 3, 3 / 5, ""⟩]
    (by norm_num [cfgB]) (by rw [fhc_okB]) ⟨0, 3, 3 / 5, ""⟩ (by simp)

/-- C9: within one `find_highlights` run, every candidate whose temp
sub-segment file was created also has it removed, on every exit path
(accepted, rejected, or aborting transcription error). -/
theorem C9_temp_files_removed (cfg : DetectionConfig) (env : DetectorEnv) (name : String)
    (rms : List ℚ) (dur : ℚ) (i : ℕ)
    (hc : FhEvent.tempCreated i ∈ (find_highlights_core cfg env name rms dur).2) :
    FhEvent.tempRemoved i ∈ (find_highlights_core cfg env name rms dur).2 := by
  by_cases h0 : rms.length = 0
  · rw [find_highlights_core, if_pos h0] at hc
    cases hc
  · by_cases h1 : listMax rms - listMin rms < 1 / 1000000
    · rw [find_highlights_core, if_neg h0, if_pos h1] at hc
      cases hc
    · by_cases h2 : peaksOf cfg rms = []
      · rw [find_highlights_core, if_neg h0, if_neg h1, if_pos h2] at hc
        cases hc
      · rw [find_highlights_core, if_neg h0, if_neg h1, if_neg h2] at hc ⊢
        cases hrec : (processCandidates cfg env name (normalizedOf rms) dur
            (peaksOf cfg rms)).1 <;>
          simp only [hrec] at hc ⊢ <;>
          exact processCandidates_temp_removed cfg env name (normalizedOf rms) dur
            (peaksOf cfg rms) i hc

theorem C9_witness :
    FhEvent.tempRemoved 1 ∈
      (find_highlights_core cfgA envBoom "s" [0, 1, 0, 1, 0] 5).2 :=
  C9_temp_files_removed cfgA envBoom "s" [0, 1, 0, 1, 0] 5 1 (by rw [fhc_boom]; decide)

theorem C10_witness :
    (safe_delete ⟨true, false, true, false⟩).loggedFinalFailure = true ∧
    (safe_delete ⟨true, false, true, false⟩).propagated = none :=
  ⟨(C10_safe_delete_total ⟨true, false, true, false⟩).2.2.2 rfl rfl rfl rfl,
   (C10_safe_delete_total ⟨true, false, true, false⟩).1⟩

end Streamliner
